import Mathlib

/-!
Verification development for the AutoGuardian vehicle-marketplace
negotiation engine.  Frontend data types and handlers are embedded from
the TypeScript sources (`apiService.ts`, `authService.ts`,
`SellerDashboard.tsx`, `VehicleDetailsPage.tsx`, `VehiclesPage.tsx`).
The backend negotiation engine itself (Flask) is not part of the
repository snapshot; the parts of it that theorems need are modelled
from the specification and are marked as such in their doc comments.
Money amounts are modelled as rationals.
-/

namespace AutoGuardian

/-- Sender of a chat message: buyer or system (apiService.ts, `ChatMessage`). -/
inductive Sender where
  | buyer
  | system
deriving DecidableEq

/-- `ChatMessage` from apiService.ts: `{ sender, message, timestamp }`.
Timestamps (ISO strings produced by `new Date().toISOString()`) are
modelled as natural numbers. -/
structure ChatMessage where
  sender : Sender
  message : String
  timestamp : Nat
deriving DecidableEq

/-- Negotiation status union type from apiService.ts:
pending, accepted or rejected. -/
inductive NegStatus where
  | pending
  | accepted
  | rejected
deriving DecidableEq

/-- `NegotiationResponse` from apiService.ts.  `contact_collected?` and
`final_price?` are optional fields; `response` is the buyer-facing text. -/
structure NegotiationResponse where
  response : String
  current_offer : ℚ
  is_final : Bool
  negotiation_id : Nat
  chat_history : List ChatMessage
  contact_collected : Option Bool
  final_price : Option ℚ

/-- JavaScript truthiness of an optional boolean
(`response.contact_collected` in VehicleDetailsPage.tsx line 109). -/
def jsTruthyBool : Option Bool → Bool
  | some b => b
  | none => false

/-- JavaScript truthiness of an optional number
(`response.final_price` in VehicleDetailsPage.tsx line 109):
`undefined` and `0` are falsy. -/
def jsTruthyNum : Option ℚ → Bool
  | some p => decide (p ≠ 0)
  | none => false

/-! ## Buyer chat session (VehicleDetailsPage.tsx) -/

/-- The React state of the buyer chat session in `VehicleDetailsPage`:
`chatMessages`, `negotiationId`, `isNegotiationComplete`, `finalPrice`. -/
structure ChatState where
  chatMessages : List ChatMessage
  negotiationId : Option Nat
  isNegotiationComplete : Bool
  finalPrice : Option ℚ

/-- Initial chat state of a fresh `VehicleDetailsPage` session. -/
def initialChatState : ChatState :=
  { chatMessages := [], negotiationId := none,
    isNegotiationComplete := false, finalPrice := none }

/-- The success path of `sendMessage` (VehicleDetailsPage.tsx lines 74-126):
appends the buyer message and the system reply to `chatMessages`, records
the negotiation id, and, when `response.contact_collected &&
response.final_price` is truthy, sets `isNegotiationComplete` and
`finalPrice`. -/
def sendMessageSuccess (st : ChatState) (msgText : String)
    (resp : NegotiationResponse) (now : Nat) : ChatState :=
  let done := jsTruthyBool resp.contact_collected && jsTruthyNum resp.final_price
  { chatMessages := st.chatMessages ++
      [⟨Sender.buyer, msgText, now⟩, ⟨Sender.system, resp.response, now⟩]
    negotiationId := some (match st.negotiationId with
      | some i => i
      | none => resp.negotiation_id)
    isNegotiationComplete := st.isNegotiationComplete || done
    finalPrice := if done then resp.final_price else st.finalPrice }

/-- The failure path of `sendMessage` (catch block, lines 114-122):
the buyer message was already appended optimistically, and an error
system message is appended; the completion flag is untouched. -/
def sendMessageFailure (st : ChatState) (msgText : String) (now : Nat) : ChatState :=
  { st with chatMessages := st.chatMessages ++
      [⟨Sender.buyer, msgText, now⟩,
       ⟨Sender.system,
        "Sorry, there was an error processing your message. Please try again.",
        now⟩] }

/-- One observable round of `sendMessage`: either the negotiation API call
succeeds with a `NegotiationResponse` or it throws. -/
inductive ChatEvent where
  | success (msgText : String) (resp : NegotiationResponse) (now : Nat)
  | failure (msgText : String) (now : Nat)

/-- Applying one chat event to the session state. -/
def chatStep (st : ChatState) : ChatEvent → ChatState
  | ChatEvent.success m r now => sendMessageSuccess st m r now
  | ChatEvent.failure m now => sendMessageFailure st m now

/-- Applying a sequence of chat events. -/
def chatRun (st : ChatState) : List ChatEvent → ChatState
  | [] => st
  | e :: es => chatRun (chatStep st e) es

/-- Whether the chat input box is rendered
(VehicleDetailsPage.tsx line 409: `{!isNegotiationComplete && ...}`). -/
def chatInputRendered (st : ChatState) : Bool :=
  !st.isNegotiationComplete

/-! ## Seller dashboard best-offer display (SellerDashboard.tsx) -/

/-- `Negotiation` from apiService.ts, restricted to the fields the seller
dashboard reads. -/
structure NegotiationView where
  id : Nat
  buyer_name : String
  buyer_email : String
  final_offer : ℚ
  status : NegStatus
deriving DecidableEq

/-- JavaScript `Math.min(...xs)`: `none` stands for the empty-spread case
(where JS returns `Infinity`); the dashboard only calls it on a non-empty
list. -/
def jsMathMin : List ℚ → Option ℚ
  | [] => none
  | h :: t => some (t.foldl min h)

/-- The "Best Offer" figure of SellerDashboard.tsx lines 357-362:
rendered only when `negotiations.length > 0`, as
`Math.min(...negotiations.map(n => n.final_offer))`. -/
def bestOfferDisplay (negs : List NegotiationView) : Option ℚ :=
  if negs.length > 0 then jsMathMin (negs.map (fun n => n.final_offer)) else none

/-- The "-X from asking" discount of SellerDashboard.tsx lines 363-367:
shown when the minimum offer is below the asking price, as
`selling_price - Math.min(...)`. -/
def discountDisplay (selling_price : ℚ) (negs : List NegotiationView) : Option ℚ :=
  match bestOfferDisplay negs with
  | some m => if m < selling_price then some (selling_price - m) else none
  | none => none

/-! ## Sell-form validation (VehiclesPage.tsx, `handleSellSubmit`) -/

/-- The payload `handleSellSubmit` posts to `createVehicleSale`. -/
structure SaleData where
  vehicle_id : Nat
  selling_price : ℚ
  minimum_price : ℚ
deriving DecidableEq

/-- Outcome of the `handleSellSubmit` validation. -/
inductive SellFormResult where
  | invalidPrices
  | minAboveSelling
  | submit (saleData : SaleData)
deriving DecidableEq

/-- `handleSellSubmit` validation (VehiclesPage.tsx lines 116-142):
rejects `selling_price <= 0 || minimum_price <= 0`, then
`minimum_price > selling_price`, and otherwise posts the sale data.
The two prices are the `parseFloat` results of the two required
numeric form fields. -/
def handleSellSubmit (vehicle_id : Nat) (selling_price minimum_price : ℚ) :
    SellFormResult :=
  if selling_price ≤ 0 ∨ minimum_price ≤ 0 then SellFormResult.invalidPrices
  else if minimum_price > selling_price then SellFormResult.minAboveSelling
  else SellFormResult.submit ⟨vehicle_id, selling_price, minimum_price⟩

/-! ## API error propagation (authService.ts, `apiCall`) -/

/-- JavaScript truthiness of an optional string field of the parsed
error body (empty string is falsy). -/
def jsTruthyStr : Option String → Bool
  | some s => !s.isEmpty
  | none => false

/-- The fields of the parsed JSON error body that `apiCall` inspects:
`error`, `validation_errors`, `message`. -/
structure ErrorBody where
  error : Option String
  validation_errors : Option (List String)
  message : Option String

/-- An HTTP response as `apiCall` observes it.  `errorBody` is `none`
when `response.json()` fails to parse in the catch block; `payload` is
the value `response.json()` resolves to on the success path. -/
structure HttpResponse (α : Type) where
  ok : Bool
  status : Nat
  statusText : String
  errorBody : Option ErrorBody
  payload : α

/-- The error message `apiCall` builds for a non-OK response
(authService.ts lines 59-74): the default `HTTP status: statusText`,
replaced by `errorData.error` when that field is truthy, with
`validation_errors` or `message` appended after a colon. -/
def apiErrorMessage {α : Type} (r : HttpResponse α) : String :=
  let dflt := "HTTP " ++ toString r.status ++ ": " ++ r.statusText
  match r.errorBody with
  | none => dflt
  | some b =>
      if jsTruthyStr b.error then
        let e := b.error.getD ""
        match b.validation_errors with
        | some vs => e ++ ": " ++ String.intercalate ", " vs
        | none =>
            if jsTruthyStr b.message then e ++ ": " ++ b.message.getD "" else e
      else dflt

/-- `apiCall` (authService.ts lines 42-78): on a non-OK response it
throws an `Error` carrying `apiErrorMessage`; otherwise it resolves to
the parsed JSON payload. -/
def apiCall {α : Type} (r : HttpResponse α) : Except String α :=
  if r.ok then Except.ok r.payload else Except.error (apiErrorMessage r)

/-! ## The negotiation engine, modelled from the specification

The Flask backend implementing the negotiation engine is not part of the
repository snapshot (only its frontend callers are), so the Negotiation
Policy, Ledger and Finalizer below are modelled from the specification
(sections 3-7) and each carries a doc comment saying so. -/

/-- Modelled from the spec: the Listing record of section 3 (the backend
`VehicleSale` store is missing from the snapshot).  `asking_price` is the
public `selling_price`, `floor_price` the private `minimum_price`. -/
structure Listing where
  id : Nat
  seller_id : Nat
  asking_price : ℚ
  floor_price : ℚ
  is_active : Bool
  is_sold : Bool
deriving DecidableEq

/-- Modelled from the spec: the Negotiation Policy phases of section 4.3,
`Opening → Bargaining → AwaitingContact → Finalized`.  `completed` is the
policy-level `Finalized` phase (conversation closed, the stored status
stays `pending` until the seller finalizes). -/
inductive Phase where
  | opening
  | bargaining
  | awaitingContact
  | completed
deriving DecidableEq

/-- Modelled from the spec: the per-negotiation state the Policy reads and
writes (section 3 `Negotiation` attributes plus the previous system
counter of section 4.3). -/
structure PolicyState where
  phase : Phase
  lastCounter : ℚ
  currentOffer : Option ℚ
  agreedPrice : Option ℚ
  buyerName : Option String
  buyerEmail : Option String
  buyerContact : Option String
  rounds : Nat
deriving DecidableEq

/-- Modelled from the spec: the Offer Extractor result of section 4.2 — a
buyer turn carries an extracted numeric offer, contact details, or
neither (plain text, a normal outcome). -/
inductive TurnInput where
  | offer (o : ℚ)
  | contactInfo (name email phone : Option String)
  | text
deriving DecidableEq

/-- Modelled from the spec: the deterministic decision the Policy hands to
the Reply Synthesizer (section 4.3); the synthesizer turns it into prose
but never changes the numbers. -/
inductive Decision where
  | revealAsking (a : ℚ)
  | counter (c : ℚ)
  | acceptAt (p : ℚ)
  | askOffer
  | askContact
  | finalize (p : ℚ)
  | closedReply
deriving DecidableEq

/-- A token of synthesized buyer-facing text: a word or a money amount.
Tokenizing the text makes "the floor price appears in `response_text`"
expressible. -/
inductive Token where
  | word (s : String)
  | amount (q : ℚ)
deriving DecidableEq

/-- Modelled from the spec: the fallback templated rendering of a Policy
decision (section 5 — the numeric fields are computed before the
language-generation call, which only rephrases them). -/
def renderText : Decision → List Token
  | Decision.revealAsking a => [Token.word "the asking price is", Token.amount a]
  | Decision.counter c => [Token.word "the best I can do is", Token.amount c]
  | Decision.acceptAt p =>
      [Token.word "deal at", Token.amount p,
       Token.word "please share your name, email and contact number"]
  | Decision.askOffer => [Token.word "what would you like to offer"]
  | Decision.askContact =>
      [Token.word "please share your name, email and contact number"]
  | Decision.finalize p =>
      [Token.word "confirmed at", Token.amount p,
       Token.word "the seller will contact you soon"]
  | Decision.closedReply => [Token.word "this negotiation is closed"]

/-- Modelled from the spec: the per-turn output contract of section 4.3,
`{ response_text, current_offer, is_final, contact_collected,
final_price? }`. -/
structure TurnOutput where
  response_text : List Token
  current_offer : Option ℚ
  is_final : Bool
  contact_collected : Bool
  final_price : Option ℚ
deriving DecidableEq

/-- Modelled from the spec: deriving the turn output from the Policy
decision and the post-turn state. -/
def renderOutput (d : Decision) (s : PolicyState) : TurnOutput :=
  { response_text := renderText d
    current_offer := s.currentOffer
    is_final := match d with | Decision.finalize _ => true | _ => false
    contact_collected := match d with | Decision.finalize _ => true | _ => false
    final_price := match d with | Decision.finalize p => some p | _ => none }

/-- Modelled from the spec: lazily populating the buyer identity fields
(section 3) whenever a turn carries contact details. -/
def recordContact (s : PolicyState) : TurnInput → PolicyState
  | TurnInput.contactInfo n e p =>
      { s with
        buyerName := n.orElse (fun _ => s.buyerName)
        buyerEmail := e.orElse (fun _ => s.buyerEmail)
        buyerContact := p.orElse (fun _ => s.buyerContact) }
  | _ => s

/-- All three buyer contact fields are present (section 4.3: the Policy
refuses `is_final` until then). -/
def contactComplete (s : PolicyState) : Bool :=
  s.buyerName.isSome && s.buyerEmail.isSome && s.buyerContact.isSome

/-- Modelled from the spec: the pure Policy decision of section 4.3.
`cap` is the fixed maximum turn count of the bounded-round rule (left an
implementation parameter by section 9). -/
def policyDecide (L : Listing) (cap : Nat) (s : PolicyState) :
    TurnInput → Decision :=
  fun inp =>
    match s.phase with
    | Phase.opening => Decision.revealAsking L.asking_price
    | Phase.bargaining =>
        match inp with
        | TurnInput.offer o =>
            if L.asking_price ≤ o then Decision.acceptAt L.asking_price
            else if s.lastCounter ≤ o then Decision.acceptAt o
            else if o < L.floor_price then Decision.counter L.floor_price
            else if cap ≤ s.rounds then Decision.counter L.floor_price
            else Decision.counter (max L.floor_price ((o + s.lastCounter) / 2))
        | _ => Decision.askOffer
    | Phase.awaitingContact =>
        if contactComplete s then
          match s.agreedPrice with
          | some p => Decision.finalize p
          | none => Decision.askContact
        else Decision.askContact
    | Phase.completed => Decision.closedReply

/-- Modelled from the spec: the state update a Policy decision performs. -/
def applyDecision (s : PolicyState) : Decision → PolicyState
  | Decision.revealAsking _ => { s with phase := Phase.bargaining }
  | Decision.counter c => { s with lastCounter := c }
  | Decision.acceptAt p =>
      { s with phase := Phase.awaitingContact, agreedPrice := some p }
  | Decision.askOffer => s
  | Decision.askContact => s
  | Decision.finalize _ => { s with phase := Phase.completed }
  | Decision.closedReply => s

/-- Modelled from the spec: the bookkeeping every turn performs before
the decision — record contact details, track the most recent buyer
proposal in `currentOffer` (section 3), and bump the round counter. -/
def advanceState (s : PolicyState) (inp : TurnInput) : PolicyState :=
  let s1 := recordContact s inp
  { s1 with
    currentOffer := match inp with
      | TurnInput.offer o => some o
      | _ => s1.currentOffer
    rounds := s1.rounds + 1 }

/-- Modelled from the spec: one full Policy turn — advance the
bookkeeping state, decide, and apply the decision. -/
def policyTurn (L : Listing) (cap : Nat) (s : PolicyState) (inp : TurnInput) :
    PolicyState × Decision :=
  (applyDecision (advanceState s inp) (policyDecide L cap (advanceState s inp) inp),
   policyDecide L cap (advanceState s inp) inp)

/-- Modelled from the spec: the Policy state of a freshly opened
negotiation — the previous system counter starts at the asking price. -/
def initState (L : Listing) : PolicyState :=
  { phase := Phase.opening, lastCounter := L.asking_price,
    currentOffer := none, agreedPrice := none,
    buyerName := none, buyerEmail := none, buyerContact := none,
    rounds := 0 }

/-- Modelled from the spec: running the Policy over a sequence of buyer
turns, collecting the state after each turn together with the decision
taken on that turn. -/
def runPolicy (L : Listing) (cap : Nat) (s : PolicyState) :
    List TurnInput → List (PolicyState × Decision)
  | [] => []
  | inp :: rest =>
      policyTurn L cap s inp :: runPolicy L cap (policyTurn L cap s inp).1 rest

/-- The Policy invariant: the standing system counter and any agreed
price lie between the floor and the asking price. -/
def PolicyInv (L : Listing) (s : PolicyState) : Prop :=
  L.floor_price ≤ s.lastCounter ∧ s.lastCounter ≤ L.asking_price ∧
    (match s.agreedPrice with
     | some p => L.floor_price ≤ p ∧ p ≤ L.asking_price
     | none => True)

/-- Soundness of a single decision: every amount it quotes lies in
`[floor_price, asking_price]`. -/
def DecisionOK (L : Listing) : Decision → Prop
  | Decision.revealAsking a => a = L.asking_price
  | Decision.counter c => L.floor_price ≤ c ∧ c ≤ L.asking_price
  | Decision.acceptAt p => L.floor_price ≤ p ∧ p ≤ L.asking_price
  | Decision.finalize p => L.floor_price ≤ p ∧ p ≤ L.asking_price
  | _ => True

lemma advanceState_fields (s : PolicyState) (inp : TurnInput) :
    (advanceState s inp).lastCounter = s.lastCounter ∧
    (advanceState s inp).agreedPrice = s.agreedPrice ∧
    (advanceState s inp).phase = s.phase := by
  cases inp <;> simp [advanceState, recordContact]

lemma advanceState_inv (L : Listing) (s : PolicyState) (inp : TurnInput)
    (h : PolicyInv L s) : PolicyInv L (advanceState s inp) := by
  obtain ⟨h1, h2, h3⟩ := advanceState_fields s inp
  unfold PolicyInv
  rw [h1, h2]
  exact h

lemma policyDecide_ok (L : Listing) (cap : Nat) (s : PolicyState) (inp : TurnInput)
    (hLA : L.floor_price ≤ L.asking_price) (h : PolicyInv L s) :
    DecisionOK L (policyDecide L cap s inp) := by
  obtain ⟨h1, h2, h3⟩ := h
  unfold policyDecide
  cases hph : s.phase with
  | opening => simp [DecisionOK]
  | bargaining =>
      cases inp with
      | offer o =>
          by_cases ha : L.asking_price ≤ o
          · simp only [ha, if_true]
            exact ⟨hLA, le_refl _⟩
          · by_cases hc : s.lastCounter ≤ o
            · simp only [ha, hc, if_true, if_false]
              exact ⟨le_trans h1 hc, le_of_not_le ha⟩
            · by_cases hf : o < L.floor_price
              · simp only [ha, hc, hf, if_true, if_false]
                exact ⟨le_refl _, hLA⟩
              · by_cases hr : cap ≤ s.rounds
                · simp only [ha, hc, hf, hr, if_true, if_false]
                  exact ⟨le_refl _, hLA⟩
                · simp only [ha, hc, hf, hr, if_true, if_false]
                  refine ⟨le_max_left _ _, max_le hLA ?_⟩
                  have ho : o < s.lastCounter := lt_of_not_le hc
                  have : (o + s.lastCounter) / 2 < s.lastCounter := by linarith
                  linarith
      | contactInfo n e p => simp [DecisionOK]
      | text => simp [DecisionOK]
  | awaitingContact =>
      by_cases hcc : contactComplete s = true
      · simp only [hcc, if_true]
        cases hag : s.agreedPrice with
        | none => simp [DecisionOK]
        | some p =>
            rw [hag] at h3
            simpa [DecisionOK] using h3
      · simp [hcc, DecisionOK]
  | completed => simp [DecisionOK]

lemma applyDecision_inv (L : Listing) (s : PolicyState) (d : Decision)
    (h : PolicyInv L s) (hd : DecisionOK L d) :
    PolicyInv L (applyDecision s d) := by
  obtain ⟨h1, h2, h3⟩ := h
  cases d with
  | revealAsking a => exact ⟨h1, h2, h3⟩
  | counter c => exact ⟨hd.1, hd.2, h3⟩
  | acceptAt p => exact ⟨h1, h2, hd⟩
  | askOffer => exact ⟨h1, h2, h3⟩
  | askContact => exact ⟨h1, h2, h3⟩
  | finalize p => exact ⟨h1, h2, h3⟩
  | closedReply => exact ⟨h1, h2, h3⟩

lemma policyTurn_sound (L : Listing) (cap : Nat) (s : PolicyState) (inp : TurnInput)
    (hLA : L.floor_price ≤ L.asking_price) (h : PolicyInv L s) :
    PolicyInv L (policyTurn L cap s inp).1 ∧ DecisionOK L (policyTurn L cap s inp).2 := by
  have h2 := advanceState_inv L s inp h
  have hd := policyDecide_ok L cap (advanceState s inp) inp hLA h2
  exact ⟨applyDecision_inv L _ _ h2 hd, hd⟩

lemma initState_inv (L : Listing) (hLA : L.floor_price ≤ L.asking_price) :
    PolicyInv L (initState L) :=
  ⟨hLA, le_refl _, trivial⟩

lemma runPolicy_steps (L : Listing) (cap : Nat)
    (hLA : L.floor_price ≤ L.asking_price) (inputs : List TurnInput) :
    ∀ s : PolicyState, PolicyInv L s →
      ∀ pr ∈ runPolicy L cap s inputs,
        ∃ s0 inp, PolicyInv L s0 ∧ pr = policyTurn L cap s0 inp := by
  induction inputs with
  | nil =>
      intro s _ pr hmem
      simp [runPolicy] at hmem
  | cons inp rest ih =>
      intro s hs pr hmem
      rw [runPolicy] at hmem
      rcases List.mem_cons.mp hmem with hEq | hmem2
      · exact ⟨s, inp, hs, hEq⟩
      · exact ih _ (policyTurn_sound L cap s inp hLA hs).1 pr hmem2

lemma runPolicy_inv_ok (L : Listing) (cap : Nat)
    (hLA : L.floor_price ≤ L.asking_price) (inputs : List TurnInput)
    (pr : PolicyState × Decision)
    (hmem : pr ∈ runPolicy L cap (initState L) inputs) :
    PolicyInv L pr.1 ∧ DecisionOK L pr.2 := by
  obtain ⟨s0, inp, hs0, hpr⟩ :=
    runPolicy_steps L cap hLA inputs (initState L) (initState_inv L hLA) pr hmem
  rw [hpr]
  exact policyTurn_sound L cap s0 inp hLA hs0

lemma decisionOK_amounts (L : Listing) (d : Decision)
    (hLA : L.floor_price ≤ L.asking_price) (hd : DecisionOK L d) :
    ∀ q : ℚ, Token.amount q ∈ renderText d → L.floor_price ≤ q := by
  intro q hq
  cases d with
  | revealAsking a =>
      simp [renderText] at hq
      rw [hq]
      rw [show a = L.asking_price from hd]
      exact hLA
  | counter c =>
      simp [renderText] at hq
      rw [hq]; exact hd.1
  | acceptAt p =>
      simp [renderText] at hq
      rw [hq]; exact hd.1
  | askOffer => simp [renderText] at hq
  | askContact => simp [renderText] at hq
  | finalize p =>
      simp [renderText] at hq
      rw [hq]; exact hd.1
  | closedReply => simp [renderText] at hq

lemma policyDecide_finalize (L : Listing) (cap : Nat) (s : PolicyState)
    (inp : TurnInput) (p : ℚ)
    (hd : policyDecide L cap s inp = Decision.finalize p) :
    contactComplete s = true ∧ s.agreedPrice = some p := by
  unfold policyDecide at hd
  cases hph : s.phase <;> rw [hph] at hd <;> dsimp only [] at hd
  case opening => exact absurd hd (by simp)
  case bargaining =>
      cases inp with
      | offer o =>
          dsimp only [] at hd
          by_cases ha : L.asking_price ≤ o
          · rw [if_pos ha] at hd; exact absurd hd (by simp)
          · rw [if_neg ha] at hd
            by_cases hc : s.lastCounter ≤ o
            · rw [if_pos hc] at hd; exact absurd hd (by simp)
            · rw [if_neg hc] at hd
              by_cases hf : o < L.floor_price
              · rw [if_pos hf] at hd; exact absurd hd (by simp)
              · rw [if_neg hf] at hd
                by_cases hr : cap ≤ s.rounds
                · rw [if_pos hr] at hd; exact absurd hd (by simp)
                · rw [if_neg hr] at hd; exact absurd hd (by simp)
      | contactInfo n e c => simp at hd
      | text => simp at hd
  case awaitingContact =>
      by_cases hcc : contactComplete s = true
      · rw [if_pos hcc] at hd
        cases hag : s.agreedPrice with
        | none => simp [hag] at hd
        | some p0 =>
            rw [hag] at hd
            simp at hd
            exact ⟨hcc, congrArg some hd⟩
      · rw [if_neg hcc] at hd; simp at hd
  case completed => exact absurd hd (by simp)

/-- A concrete listing with asking price 2,000,000 and floor price
1,700,000 (the concrete scenario of spec section 8). -/
def sampleListing : Listing :=
  { id := 1, seller_id := 7, asking_price := 2000000, floor_price := 1700000,
    is_active := true, is_sold := false }

/-- Buyer turns of the lowball scenario: a greeting, then an offer of
1,500,000, below the floor. -/
def lowballInputs : List TurnInput :=
  [TurnInput.text, TurnInput.offer 1500000]

/-- The Policy state after the lowball scenario: the system has
countered at exactly the floor price. -/
def lowballState : PolicyState :=
  { phase := Phase.bargaining, lastCounter := 1700000,
    currentOffer := some 1500000, agreedPrice := none,
    buyerName := none, buyerEmail := none, buyerContact := none,
    rounds := 2 }

/-- Buyer turns of the successful-deal scenario: greeting, offer
1,750,000 (countered at 1,875,000), offer 1,900,000 (accepted), then
full contact details (finalized). -/
def dealInputs : List TurnInput :=
  [TurnInput.text, TurnInput.offer 1750000, TurnInput.offer 1900000,
   TurnInput.contactInfo (some "Amal Perera") (some "amal@example.com")
     (some "0771234567")]

/-- The Policy state after the successful-deal scenario. -/
def dealFinalState : PolicyState :=
  { phase := Phase.completed, lastCounter := 1875000,
    currentOffer := some 1900000, agreedPrice := some 1900000,
    buyerName := some "Amal Perera", buyerEmail := some "amal@example.com",
    buyerContact := some "0771234567", rounds := 4 }

/-- C1 (amended): in every reachable negotiation turn, every money
amount quoted in the buyer-facing `response_text` is at least the floor
price (so the floor is never undercut and the response carries no
dedicated floor field), and every reported `final_price` is at least
the floor price.  The literal claim that the floor value never appears
at all fails: when the buyer offers below the floor the system counters
at exactly the floor (spec section 4.3), as the counterexample shows. -/
theorem negotiation_floor_invariant (L : Listing) (cap : Nat)
    (hLA : L.floor_price ≤ L.asking_price) (inputs : List TurnInput)
    (pr : PolicyState × Decision)
    (hmem : pr ∈ runPolicy L cap (initState L) inputs) :
    (∀ q : ℚ, Token.amount q ∈ (renderOutput pr.2 pr.1).response_text →
       L.floor_price ≤ q) ∧
    (∀ p : ℚ, (renderOutput pr.2 pr.1).final_price = some p →
       L.floor_price ≤ p) := by
  obtain ⟨s, d⟩ := pr
  obtain ⟨hInv, hOK⟩ := runPolicy_inv_ok L cap hLA inputs ⟨s, d⟩ hmem
  constructor
  · intro q hq
    exact decisionOK_amounts L d hLA hOK q hq
  · intro p hp
    cases d with
    | finalize p0 =>
        have hpp : p0 = p := by simpa [renderOutput] using hp
        subst hpp
        exact hOK.1
    | revealAsking a => simp [renderOutput] at hp
    | counter c => simp [renderOutput] at hp
    | acceptAt q => simp [renderOutput] at hp
    | askOffer => simp [renderOutput] at hp
    | askContact => simp [renderOutput] at hp
    | closedReply => simp [renderOutput] at hp

/-- Witness for C1 at the lowball scenario on the sample listing. -/
theorem negotiation_floor_invariant_witness :
    (∀ q : ℚ,
       Token.amount q ∈
         (renderOutput (Decision.counter 1700000) lowballState).response_text →
       sampleListing.floor_price ≤ q) ∧
    (∀ p : ℚ,
       (renderOutput (Decision.counter 1700000) lowballState).final_price =
         some p →
       sampleListing.floor_price ≤ p) :=
  negotiation_floor_invariant sampleListing 10 (by norm_num [sampleListing])
    lowballInputs ⟨lowballState, Decision.counter 1700000⟩ (by decide)

/-- Counterexample to C1 as literally stated: on the sample listing, the
reachable turn answering the below-floor offer of 1,500,000 quotes the
floor price 1,700,000 verbatim in its `response_text`. -/
theorem floor_appears_in_response_counterexample :
    ∃ pr ∈ runPolicy sampleListing 10 (initState sampleListing) lowballInputs,
      Token.amount sampleListing.floor_price ∈
        (renderOutput pr.2 pr.1).response_text := by
  refine ⟨⟨lowballState, Decision.counter 1700000⟩, by decide, by decide⟩

/-- C2: a turn response reports `is_final = true` only when it also
reports `contact_collected = true`, all three buyer contact fields are
present in the negotiation state, and the reported `final_price` is an
agreed price at or above the floor. -/
theorem finalization_gate (L : Listing) (cap : Nat)
    (hLA : L.floor_price ≤ L.asking_price) (inputs : List TurnInput)
    (pr : PolicyState × Decision)
    (hmem : pr ∈ runPolicy L cap (initState L) inputs)
    (hfin : (renderOutput pr.2 pr.1).is_final = true) :
    (renderOutput pr.2 pr.1).contact_collected = true ∧
    pr.1.buyerName.isSome = true ∧
    pr.1.buyerEmail.isSome = true ∧
    pr.1.buyerContact.isSome = true ∧
    ∃ p : ℚ, (renderOutput pr.2 pr.1).final_price = some p ∧
      L.floor_price ≤ p ∧ pr.1.agreedPrice = some p := by
  obtain ⟨s0, inp, hs0, hpr⟩ :=
    runPolicy_steps L cap hLA inputs (initState L) (initState_inv L hLA) pr hmem
  have hOK := (policyTurn_sound L cap s0 inp hLA hs0).2
  rw [← hpr] at hOK
  have hfinz : ∃ p : ℚ, pr.2 = Decision.finalize p := by
    obtain ⟨s, d⟩ := pr
    cases d <;> simp_all [renderOutput]
  obtain ⟨p, hp⟩ := hfinz
  have hd2 : policyDecide L cap (advanceState s0 inp) inp = Decision.finalize p := by
    have : (policyTurn L cap s0 inp).2 = Decision.finalize p := by rw [← hpr]; exact hp
    exact this
  obtain ⟨hcc, hag⟩ := policyDecide_finalize L cap (advanceState s0 inp) inp p hd2
  have hfst : pr.1 = applyDecision (advanceState s0 inp)
      (policyDecide L cap (advanceState s0 inp) inp) := by rw [hpr]; rfl
  rw [hd2] at hfst
  have hfields : pr.1.buyerName = (advanceState s0 inp).buyerName ∧
      pr.1.buyerEmail = (advanceState s0 inp).buyerEmail ∧
      pr.1.buyerContact = (advanceState s0 inp).buyerContact ∧
      pr.1.agreedPrice = (advanceState s0 inp).agreedPrice := by
    rw [hfst]; exact ⟨rfl, rfl, rfl, rfl⟩
  have hcc3 := hcc
  unfold contactComplete at hcc3
  rw [Bool.and_eq_true, Bool.and_eq_true] at hcc3
  rw [hp] at hOK
  refine ⟨by rw [hp]; rfl, ?_, ?_, ?_, p, by rw [hp]; rfl, hOK.1, ?_⟩
  · rw [hfields.1]; exact hcc3.1.1
  · rw [hfields.2.1]; exact hcc3.1.2
  · rw [hfields.2.2.1]; exact hcc3.2
  · rw [hfields.2.2.2]; exact hag

/-- Witness for C2 at the successful-deal scenario on the sample
listing: the finalizing turn reports `is_final = true` with
`final_price = 1,900,000 ≥ 1,700,000` and all contact fields present. -/
theorem finalization_gate_witness :
    (renderOutput (Decision.finalize 1900000) dealFinalState).contact_collected
        = true ∧
    dealFinalState.buyerName.isSome = true ∧
    dealFinalState.buyerEmail.isSome = true ∧
    dealFinalState.buyerContact.isSome = true ∧
    ∃ p : ℚ,
      (renderOutput (Decision.finalize 1900000) dealFinalState).final_price =
        some p ∧
      sampleListing.floor_price ≤ p ∧ dealFinalState.agreedPrice = some p :=
  finalization_gate sampleListing 10 (by norm_num [sampleListing]) dealInputs
    ⟨dealFinalState, Decision.finalize 1900000⟩
    (by
      norm_num [runPolicy, policyTurn, advanceState, recordContact,
        policyDecide, applyDecision, initState, sampleListing, dealInputs,
        dealFinalState, contactComplete])
    (by decide)

/-- The counter-offers issued along a Policy trace, in order. -/
def countersOf (tr : List (PolicyState × Decision)) : List ℚ :=
  tr.filterMap (fun pr =>
    match pr.2 with
    | Decision.counter c => some c
    | _ => none)

/-- A list of rationals is non-increasing. -/
def NonIncr : List ℚ → Prop
  | [] => True
  | [_] => True
  | a :: b :: t => b ≤ a ∧ NonIncr (b :: t)

lemma nonIncr_cons (a : ℚ) (l : List ℚ) (h : ∀ x ∈ l, x ≤ a)
    (hl : NonIncr l) : NonIncr (a :: l) := by
  cases l with
  | nil => trivial
  | cons b t => exact ⟨h b (List.mem_cons_self b t), hl⟩

lemma policyDecide_counter_le (L : Listing) (cap : Nat) (s : PolicyState)
    (inp : TurnInput) (c : ℚ) (hInv : PolicyInv L s)
    (hd : policyDecide L cap s inp = Decision.counter c) :
    L.floor_price ≤ c ∧ c ≤ s.lastCounter := by
  obtain ⟨h1, h2, h3⟩ := hInv
  unfold policyDecide at hd
  cases hph : s.phase <;> rw [hph] at hd <;> dsimp only [] at hd
  case opening => exact absurd hd (by simp)
  case bargaining =>
      cases inp with
      | offer o =>
          dsimp only [] at hd
          by_cases ha : L.asking_price ≤ o
          · rw [if_pos ha] at hd; exact absurd hd (by simp)
          · rw [if_neg ha] at hd
            by_cases hc : s.lastCounter ≤ o
            · rw [if_pos hc] at hd; exact absurd hd (by simp)
            · rw [if_neg hc] at hd
              by_cases hf : o < L.floor_price
              · rw [if_pos hf] at hd
                have : c = L.floor_price := by
                  simpa using hd.symm
                rw [this]; exact ⟨le_refl _, h1⟩
              · rw [if_neg hf] at hd
                by_cases hr : cap ≤ s.rounds
                · rw [if_pos hr] at hd
                  have : c = L.floor_price := by simpa using hd.symm
                  rw [this]; exact ⟨le_refl _, h1⟩
                · rw [if_neg hr] at hd
                  have hcv : c = max L.floor_price ((o + s.lastCounter) / 2) := by
                    simpa using hd.symm
                  rw [hcv]
                  refine ⟨le_max_left _ _, max_le h1 ?_⟩
                  have ho : o < s.lastCounter := lt_of_not_le hc
                  linarith
      | contactInfo n e p => simp at hd
      | text => simp at hd
  case awaitingContact =>
      by_cases hcc : contactComplete s = true
      · rw [if_pos hcc] at hd
        cases hag : s.agreedPrice with
        | none => simp [hag] at hd
        | some p0 => rw [hag] at hd; simp at hd
      · rw [if_neg hcc] at hd; simp at hd
  case completed => exact absurd hd (by simp)

lemma policyTurn_counter_facts (L : Listing) (cap : Nat) (s : PolicyState)
    (inp : TurnInput) (hInv : PolicyInv L s) :
    (policyTurn L cap s inp).1.lastCounter ≤ s.lastCounter ∧
    ∀ c : ℚ, (policyTurn L cap s inp).2 = Decision.counter c →
      c = (policyTurn L cap s inp).1.lastCounter := by
  have hlc : (advanceState s inp).lastCounter = s.lastCounter :=
    (advanceState_fields s inp).1
  have hInv2 := advanceState_inv L s inp hInv
  constructor
  · show (applyDecision (advanceState s inp)
        (policyDecide L cap (advanceState s inp) inp)).lastCounter ≤ s.lastCounter
    cases hd : policyDecide L cap (advanceState s inp) inp with
    | counter c =>
        have hle := policyDecide_counter_le L cap (advanceState s inp) inp c hInv2 hd
        exact le_trans hle.2 (le_of_eq hlc)
    | revealAsking a => exact le_of_eq hlc
    | acceptAt p => exact le_of_eq hlc
    | askOffer => exact le_of_eq hlc
    | askContact => exact le_of_eq hlc
    | finalize p => exact le_of_eq hlc
    | closedReply => exact le_of_eq hlc
  · intro c hc
    show c = (applyDecision (advanceState s inp)
        (policyDecide L cap (advanceState s inp) inp)).lastCounter
    rw [show policyDecide L cap (advanceState s inp) inp = Decision.counter c from hc]
    rfl

lemma counters_bounded (L : Listing) (cap : Nat)
    (hLA : L.floor_price ≤ L.asking_price) :
    ∀ (inputs : List TurnInput) (s : PolicyState), PolicyInv L s →
      NonIncr (countersOf (runPolicy L cap s inputs)) ∧
      ∀ c ∈ countersOf (runPolicy L cap s inputs),
        L.floor_price ≤ c ∧ c ≤ s.lastCounter := by
  intro inputs
  induction inputs with
  | nil =>
      intro s _
      exact ⟨trivial, fun c hc => absurd hc (by simp [countersOf, runPolicy])⟩
  | cons inp rest ih =>
      intro s hs
      have hs2 := (policyTurn_sound L cap s inp hLA hs).1
      have hdOK := (policyTurn_sound L cap s inp hLA hs).2
      obtain ⟨ihN, ihB⟩ := ih (policyTurn L cap s inp).1 hs2
      obtain ⟨hmono, hcval⟩ := policyTurn_counter_facts L cap s inp hs
      rw [runPolicy]
      cases hd : (policyTurn L cap s inp).2 with
      | counter c =>
          have hcc : c = (policyTurn L cap s inp).1.lastCounter := hcval c hd
          have hcons : countersOf (policyTurn L cap s inp ::
              runPolicy L cap (policyTurn L cap s inp).1 rest) =
              c :: countersOf (runPolicy L cap (policyTurn L cap s inp).1 rest) := by
            simp [countersOf, hd]
          rw [hcons]
          constructor
          · refine nonIncr_cons c _ (fun x hx => ?_) ihN
            have hxb := ihB x hx
            rw [← hcc] at hxb
            exact hxb.2
          · intro x hx
            rcases List.mem_cons.mp hx with hEq | hx2
            · subst hEq
              rw [hd] at hdOK
              refine ⟨hdOK.1, ?_⟩
              rw [hcc]
              exact hmono
            · have hxb := ihB x hx2
              exact ⟨hxb.1, le_trans hxb.2 hmono⟩
      | revealAsking a =>
          have hcons : countersOf (policyTurn L cap s inp ::
              runPolicy L cap (policyTurn L cap s inp).1 rest) =
              countersOf (runPolicy L cap (policyTurn L cap s inp).1 rest) := by
            simp [countersOf, hd]
          rw [hcons]
          exact ⟨ihN, fun x hx => ⟨(ihB x hx).1, le_trans (ihB x hx).2 hmono⟩⟩
      | acceptAt p =>
          have hcons : countersOf (policyTurn L cap s inp ::
              runPolicy L cap (policyTurn L cap s inp).1 rest) =
              countersOf (runPolicy L cap (policyTurn L cap s inp).1 rest) := by
            simp [countersOf, hd]
          rw [hcons]
          exact ⟨ihN, fun x hx => ⟨(ihB x hx).1, le_trans (ihB x hx).2 hmono⟩⟩
      | askOffer =>
          have hcons : countersOf (policyTurn L cap s inp ::
              runPolicy L cap (policyTurn L cap s inp).1 rest) =
              countersOf (runPolicy L cap (policyTurn L cap s inp).1 rest) := by
            simp [countersOf, hd]
          rw [hcons]
          exact ⟨ihN, fun x hx => ⟨(ihB x hx).1, le_trans (ihB x hx).2 hmono⟩⟩
      | askContact =>
          have hcons : countersOf (policyTurn L cap s inp ::
              runPolicy L cap (policyTurn L cap s inp).1 rest) =
              countersOf (runPolicy L cap (policyTurn L cap s inp).1 rest) := by
            simp [countersOf, hd]
          rw [hcons]
          exact ⟨ihN, fun x hx => ⟨(ihB x hx).1, le_trans (ihB x hx).2 hmono⟩⟩
      | finalize p =>
          have hcons : countersOf (policyTurn L cap s inp ::
              runPolicy L cap (policyTurn L cap s inp).1 rest) =
              countersOf (runPolicy L cap (policyTurn L cap s inp).1 rest) := by
            simp [countersOf, hd]
          rw [hcons]
          exact ⟨ihN, fun x hx => ⟨(ihB x hx).1, le_trans (ihB x hx).2 hmono⟩⟩
      | closedReply =>
          have hcons : countersOf (policyTurn L cap s inp ::
              runPolicy L cap (policyTurn L cap s inp).1 rest) =
              countersOf (runPolicy L cap (policyTurn L cap s inp).1 rest) := by
            simp [countersOf, hd]
          rw [hcons]
          exact ⟨ihN, fun x hx => ⟨(ihB x hx).1, le_trans (ihB x hx).2 hmono⟩⟩

/-- C5 (amended): along every Policy run the issued counter-offers are
non-increasing and bounded within `[floor_price, asking_price]`, and
whenever a buyer offer `o` with `floor_price ≤ o < previous counter`
arrives below the asking price and before the round cap, the issued
counter lies strictly between `o` and the previous counter and is never
below `max floor_price o`.  The literal claim that every counter is
strictly between the offer and the previous counter fails for offers
below the floor (the system then counters at exactly the floor, possibly
repeating the previous counter), as the counterexample shows. -/
theorem counter_offer_convergence (L : Listing) (cap : Nat)
    (hLA : L.floor_price ≤ L.asking_price) (inputs : List TurnInput) :
    (NonIncr (countersOf (runPolicy L cap (initState L) inputs)) ∧
     ∀ c ∈ countersOf (runPolicy L cap (initState L) inputs),
       L.floor_price ≤ c ∧ c ≤ L.asking_price) ∧
    (∀ (s : PolicyState) (o : ℚ), PolicyInv L s →
       s.phase = Phase.bargaining → L.floor_price ≤ o → o < s.lastCounter →
       o < L.asking_price → s.rounds + 1 < cap →
       ∃ c : ℚ,
         (policyTurn L cap s (TurnInput.offer o)).2 = Decision.counter c ∧
         o < c ∧ c < s.lastCounter ∧ max L.floor_price o ≤ c) := by
  constructor
  · obtain ⟨hN, hB⟩ :=
      counters_bounded L cap hLA inputs (initState L) (initState_inv L hLA)
    exact ⟨hN, fun c hc => ⟨(hB c hc).1, (hB c hc).2⟩⟩
  · intro s o hInv hph hfo holc hoa hcap
    have h1 : ¬ L.asking_price ≤ o := not_le.mpr hoa
    have h2 : ¬ s.lastCounter ≤ o := not_le.mpr holc
    have h3 : ¬ o < L.floor_price := not_lt.mpr hfo
    have h4 : ¬ cap ≤ s.rounds + 1 := not_le.mpr hcap
    have hadv : advanceState s (TurnInput.offer o) =
        { s with currentOffer := some o, rounds := s.rounds + 1 } := by
      simp [advanceState, recordContact]
    refine ⟨max L.floor_price ((o + s.lastCounter) / 2), ?_, ?_, ?_, ?_⟩
    · show policyDecide L cap (advanceState s (TurnInput.offer o))
        (TurnInput.offer o) = _
      rw [hadv]
      simp [policyDecide, hph, h1, h2, h3, h4]
    · have hmid : o < (o + s.lastCounter) / 2 := by linarith
      exact lt_of_lt_of_le hmid (le_max_right _ _)
    · have hmid : (o + s.lastCounter) / 2 < s.lastCounter := by linarith
      exact max_lt (lt_of_le_of_lt hfo holc) hmid
    · have hmid : o < (o + s.lastCounter) / 2 := by linarith
      exact max_le (le_max_left _ _)
        (le_trans (le_of_lt hmid) (le_max_right _ _))

/-- Witness for C5 on the sample listing and the successful-deal buyer
turns. -/
theorem counter_offer_convergence_witness :
    ((NonIncr (countersOf
        (runPolicy sampleListing 10 (initState sampleListing) dealInputs)) ∧
      ∀ c ∈ countersOf
          (runPolicy sampleListing 10 (initState sampleListing) dealInputs),
        sampleListing.floor_price ≤ c ∧ c ≤ sampleListing.asking_price) ∧
     (∀ (s : PolicyState) (o : ℚ), PolicyInv sampleListing s →
        s.phase = Phase.bargaining → sampleListing.floor_price ≤ o →
        o < s.lastCounter → o < sampleListing.asking_price →
        s.rounds + 1 < 10 →
        ∃ c : ℚ,
          (policyTurn sampleListing 10 s (TurnInput.offer o)).2 =
            Decision.counter c ∧
          o < c ∧ c < s.lastCounter ∧
          max sampleListing.floor_price o ≤ c)) :=
  counter_offer_convergence sampleListing 10 (by norm_num [sampleListing])
    dealInputs

/-- Counterexample to C5 as literally stated: with two successive
below-floor offers (1,000,000 then 1,100,000, strictly increasing toward
the asking price), the system counters at exactly the floor both times,
so the second counter (1,700,000) is not strictly below the previous
counter (1,700,000). -/
theorem strict_betweenness_counterexample :
    countersOf (runPolicy sampleListing 10 (initState sampleListing)
        [TurnInput.text, TurnInput.offer 1000000, TurnInput.offer 1100000]) =
      [1700000, 1700000] ∧
    ¬ ((1700000 : ℚ) < (1700000 : ℚ)) :=
  ⟨by decide, lt_irrefl _⟩

/-! ## Negotiation Ledger and Finalizer, modelled from the specification -/

/-- Rendering one text token to a transcript string. -/
def tokenText : Token → String
  | Token.word s => s
  | Token.amount q => "Rs " ++ toString q.num ++ "/" ++ toString q.den

/-- Rendering a token list to a transcript string. -/
def renderString (ts : List Token) : String :=
  String.intercalate " " (ts.map tokenText)

/-- Modelled from the spec: one stored Negotiation row (section 3) — the
append-only transcript, the Policy state, the last turn output (kept so
an idempotent replay can return the previous response), and the stored
status. -/
structure NegRow where
  id : Nat
  transcript : List ChatMessage
  pstate : PolicyState
  lastOutput : TurnOutput
  status : NegStatus
deriving DecidableEq

/-- Modelled from the spec: the persistent store — one Listing and the
negotiations referencing it (section 2). -/
structure Store where
  listing : Listing
  negs : List NegRow
deriving DecidableEq

/-- Modelled from the spec: the Finalizer failure modes of section 4.4. -/
inductive FinError where
  | NegotiationNotFound
  | NotOwner
  | AlreadySold
  | AlreadyTerminal
deriving DecidableEq

/-- Modelled from the spec: the Ledger failure modes of section 4.1. -/
inductive LedgerError where
  | ListingUnavailable
  | NegotiationNotFound
  | NegotiationClosed
deriving DecidableEq

/-- Looking a negotiation row up by id. -/
def findNeg : List NegRow → Nat → Option NegRow
  | [], _ => none
  | n :: t, nid => if n.id = nid then some n else findNeg t nid

/-- The message of the most recent buyer turn of a transcript, used for
the transcript-tail idempotency comparison of section 5. -/
def lastBuyerMessage (ts : List ChatMessage) : Option String :=
  (ts.reverse.find? (fun t => decide (t.sender = Sender.buyer))).map
    (fun t => t.message)

/-- Modelled from the spec: the Finalizer accept path of section 4.4
(the `acceptNegotiation` endpoint of apiService.ts) — reject the call
when the id does not resolve, the caller does not own the listing, the
listing is already sold, or the negotiation is already terminal;
otherwise atomically accept this negotiation, mark the listing sold and
inactive, and reject every other pending negotiation on the listing. -/
def acceptNegotiation (st : Store) (nid : Nat) (seller : Nat) :
    Except FinError Store :=
  match findNeg st.negs nid with
  | none => Except.error FinError.NegotiationNotFound
  | some n =>
      if st.listing.seller_id ≠ seller then Except.error FinError.NotOwner
      else if st.listing.is_sold then Except.error FinError.AlreadySold
      else if n.status ≠ NegStatus.pending then
        Except.error FinError.AlreadyTerminal
      else Except.ok
        { listing := { st.listing with is_sold := true, is_active := false }
          negs := st.negs.map (fun m =>
            if m.id = nid then { m with status := NegStatus.accepted }
            else if m.status = NegStatus.pending then
              { m with status := NegStatus.rejected }
            else m) }

/-- Modelled from the spec: the Finalizer reject path of section 4.4
(the `rejectNegotiation` endpoint of apiService.ts) — no cascade, the
listing stays active. -/
def rejectNegotiation (st : Store) (nid : Nat) (seller : Nat) :
    Except FinError Store :=
  match findNeg st.negs nid with
  | none => Except.error FinError.NegotiationNotFound
  | some n =>
      if st.listing.seller_id ≠ seller then Except.error FinError.NotOwner
      else if n.status ≠ NegStatus.pending then
        Except.error FinError.AlreadyTerminal
      else Except.ok
        { st with negs := st.negs.map (fun m =>
            if m.id = nid then { m with status := NegStatus.rejected }
            else m) }

/-- The result of one `negotiate` call: the updated store, the turn
output and the negotiation id. -/
structure TurnResult where
  store : Store
  response : TurnOutput
  negotiation_id : Nat
deriving DecidableEq

/-- Modelled from the spec: `open_or_continue` of section 4.1 plus the
idempotency rule of section 5.  Opening fails with `ListingUnavailable`
on an inactive or sold listing; continuing fails with
`NegotiationNotFound` or, on a terminal status or a completed
conversation, `NegotiationClosed`; a retried identical buyer message is
deduplicated by transcript-tail comparison and returns the previous
response without appending.  `ext` is the Offer Extractor. -/
def openOrContinue (ext : String → TurnInput) (cap : Nat) (st : Store)
    (negId : Option Nat) (msg : String) (now : Nat) :
    Except LedgerError TurnResult :=
  match negId with
  | none =>
      if !st.listing.is_active || st.listing.is_sold then
        Except.error LedgerError.ListingUnavailable
      else
        let nid := (st.negs.map (fun n => n.id)).foldl max 0 + 1
        let r := policyTurn st.listing cap (initState st.listing) (ext msg)
        let out := renderOutput r.2 r.1
        Except.ok
          { store := { st with negs := st.negs ++
              [{ id := nid
                 transcript :=
                   [⟨Sender.buyer, msg, now⟩,
                    ⟨Sender.system, renderString out.response_text, now⟩]
                 pstate := r.1
                 lastOutput := out
                 status := NegStatus.pending }] }
            response := out
            negotiation_id := nid }
  | some nid =>
      match findNeg st.negs nid with
      | none => Except.error LedgerError.NegotiationNotFound
      | some n =>
          if n.status ≠ NegStatus.pending then
            Except.error LedgerError.NegotiationClosed
          else if n.pstate.phase = Phase.completed then
            Except.error LedgerError.NegotiationClosed
          else if lastBuyerMessage n.transcript = some msg then
            Except.ok { store := st, response := n.lastOutput,
                        negotiation_id := nid }
          else
            let r := policyTurn st.listing cap n.pstate (ext msg)
            let out := renderOutput r.2 r.1
            let row := { n with
              transcript := n.transcript ++
                [⟨Sender.buyer, msg, now⟩,
                 ⟨Sender.system, renderString out.response_text, now⟩]
              pstate := r.1
              lastOutput := out }
            Except.ok
              { store := { st with negs := st.negs.map (fun m =>
                  if m.id = nid then row else m) }
                response := out
                negotiation_id := nid }

/-- The transcript the store holds for a negotiation id. -/
def transcriptOf (st : Store) (nid : Nat) : List ChatMessage :=
  match findNeg st.negs nid with
  | some n => n.transcript
  | none => []

/-- The store after a `negotiate` call: unchanged when the call fails. -/
def storeAfter (res : Except LedgerError TurnResult) (fallback : Store) :
    Store :=
  match res with
  | Except.ok r => r.store
  | Except.error _ => fallback

/-- The legal status transitions: stay put, or move from pending to a
terminal status (spec section 3). -/
def StatusStep (a b : NegStatus) : Prop :=
  a = b ∨ (a = NegStatus.pending ∧
    (b = NegStatus.accepted ∨ b = NegStatus.rejected))

/-- Negotiation ids are pairwise distinct in the store. -/
def IdsUnique (negs : List NegRow) : Prop :=
  (negs.map (fun n => n.id)).Nodup

lemma findNeg_map (l : List NegRow) (nid : Nat) (f : NegRow → NegRow)
    (hf : ∀ m, (f m).id = m.id) :
    findNeg (l.map f) nid = (findNeg l nid).map f := by
  induction l with
  | nil => rfl
  | cons x t ih =>
      by_cases h : x.id = nid
      · simp [findNeg, hf, h]
      · simp [findNeg, hf, h, ih]

lemma findNeg_mem (l : List NegRow) (nid : Nat) (n : NegRow)
    (h : findNeg l nid = some n) : n ∈ l ∧ n.id = nid := by
  induction l with
  | nil => simp [findNeg] at h
  | cons x t ih =>
      by_cases hx : x.id = nid
      · rw [findNeg, if_pos hx] at h
        injection h with h
        subst h
        exact ⟨List.mem_cons_self x t, hx⟩
      · rw [findNeg, if_neg hx] at h
        obtain ⟨h1, h2⟩ := ih h
        exact ⟨List.mem_cons_of_mem x h1, h2⟩

lemma findNeg_of_mem (l : List NegRow) (nid : Nat)
    (h : ∃ n ∈ l, n.id = nid) :
    ∃ n, findNeg l nid = some n ∧ n ∈ l ∧ n.id = nid := by
  induction l with
  | nil => simp at h
  | cons x t ih =>
      by_cases hx : x.id = nid
      · exact ⟨x, by rw [findNeg, if_pos hx], List.mem_cons_self x t, hx⟩
      · obtain ⟨n, hn, hnid⟩ := h
        rcases List.mem_cons.mp hn with hEq | hn2
        · subst hEq; exact absurd hnid hx
        · obtain ⟨m, hm1, hm2, hm3⟩ := ih ⟨n, hn2, hnid⟩
          exact ⟨m, by rw [findNeg, if_neg hx]; exact hm1,
            List.mem_cons_of_mem x hm2, hm3⟩

lemma eq_of_id_eq (l : List NegRow) (hu : IdsUnique l) (m n : NegRow)
    (hm : m ∈ l) (hn : n ∈ l) (h : m.id = n.id) : m = n :=
  List.inj_on_of_nodup_map hu hm hn h

lemma lastBuyerMessage_append (ts : List ChatMessage) (msg x : String)
    (n1 n2 : Nat) :
    lastBuyerMessage (ts ++
      [⟨Sender.buyer, msg, n1⟩, ⟨Sender.system, x, n2⟩]) = some msg := by
  unfold lastBuyerMessage
  rw [List.reverse_append]
  simp [List.find?]

/-- C3: accepting negotiation A on a listing with two pending
negotiations A and B marks A accepted, the listing sold and inactive,
and every other pending negotiation on the listing — B included —
rejected; accepting B afterwards fails with `AlreadySold`. -/
theorem sale_exclusivity (st : Store) (a b seller : Nat)
    (hown : st.listing.seller_id = seller)
    (hsold : st.listing.is_sold = false)
    (hEa : ∃ n ∈ st.negs, n.id = a)
    (hPa : ∀ n ∈ st.negs, n.id = a → n.status = NegStatus.pending)
    (hEb : ∃ n ∈ st.negs, n.id = b)
    (hPb : ∀ n ∈ st.negs, n.id = b → n.status = NegStatus.pending)
    (hab : a ≠ b) :
    ∃ st', acceptNegotiation st a seller = Except.ok st' ∧
      st'.listing.is_sold = true ∧
      st'.listing.is_active = false ∧
      (∀ n ∈ st'.negs, n.id = a → n.status = NegStatus.accepted) ∧
      (∀ n ∈ st'.negs, n.id = b → n.status = NegStatus.rejected) ∧
      acceptNegotiation st' b seller = Except.error FinError.AlreadySold := by
  obtain ⟨n0, hf0, hm0, hid0⟩ := findNeg_of_mem st.negs a hEa
  have hp0 := hPa n0 hm0 hid0
  set f : NegRow → NegRow := fun m =>
    if m.id = a then { m with status := NegStatus.accepted }
    else if m.status = NegStatus.pending then
      { m with status := NegStatus.rejected }
    else m with hfdef
  have hfid : ∀ m, (f m).id = m.id := by
    intro m
    by_cases h1 : m.id = a
    · simp [hfdef, h1]
    · by_cases h2 : m.status = NegStatus.pending <;> simp [hfdef, h1, h2]
  set st2 : Store :=
    { listing := { st.listing with is_sold := true, is_active := false }
      negs := st.negs.map f } with hst2
  have hacc : acceptNegotiation st a seller = Except.ok st2 := by
    unfold acceptNegotiation
    rw [hf0]
    dsimp only []
    rw [if_neg (by simp [hown]), if_neg (by simp [hsold]),
      if_neg (by simp [hp0])]
  refine ⟨st2, hacc, by simp [hst2], by simp [hst2], ?_, ?_, ?_⟩
  · intro n hn hna
    simp only [hst2] at hn
    obtain ⟨m, hm, hfm⟩ := List.mem_map.mp hn
    by_cases h : m.id = a
    · rw [← hfm]; simp [hfdef, h]
    · exfalso
      apply h
      rw [← hna, ← hfm]
      exact (hfid m).symm
  · intro n hn hnb
    simp only [hst2] at hn
    obtain ⟨m, hm, hfm⟩ := List.mem_map.mp hn
    have hmb : m.id = b := by rw [← hnb, ← hfm]; exact (hfid m).symm
    have hmp := hPb m hm hmb
    have hma : ¬ m.id = a := by
      rw [hmb]
      intro h
      exact hab h.symm
    rw [← hfm]
    simp [hfdef, hma, hmp]
  · obtain ⟨n1, hf1, hm1, hid1⟩ := findNeg_of_mem st.negs b hEb
    have hfind2 : findNeg st2.negs b = some (f n1) := by
      have hn2 : st2.negs = st.negs.map f := rfl
      rw [hn2, findNeg_map st.negs b f hfid, hf1]
      rfl
    unfold acceptNegotiation
    rw [hfind2]
    dsimp only []
    rw [if_neg (by simp [hst2, hown]), if_pos (by simp [hst2])]

/-- C4: sending the identical `(negotiation_id, buyer_message)` pair
twice appends exactly one transcript entry — one buyer `ChatMessage`
with one system reply; the retry leaves the store unchanged (it either
returns the previous response via the transcript-tail comparison, or is
refused because the first turn completed the conversation). -/
theorem idempotent_replay (ext : String → TurnInput) (cap : Nat)
    (st : Store) (nid : Nat) (msg : String) (now now2 : Nat) (n : NegRow)
    (hfind : findNeg st.negs nid = some n)
    (hpend : n.status = NegStatus.pending)
    (hph : ¬ n.pstate.phase = Phase.completed)
    (hfresh : ¬ lastBuyerMessage n.transcript = some msg) :
    ∃ r1 : TurnResult, ∃ reply : String,
      openOrContinue ext cap st (some nid) msg now = Except.ok r1 ∧
      transcriptOf r1.store nid = n.transcript ++
        [⟨Sender.buyer, msg, now⟩, ⟨Sender.system, reply, now⟩] ∧
      storeAfter (openOrContinue ext cap r1.store (some nid) msg now2)
        r1.store = r1.store := by
  obtain ⟨hnmem, hnid⟩ := findNeg_mem st.negs nid n hfind
  set r : PolicyState × Decision := policyTurn st.listing cap n.pstate (ext msg)
    with hr
  set out : TurnOutput := renderOutput r.2 r.1 with hout
  set row : NegRow := { n with
      transcript := n.transcript ++
        [⟨Sender.buyer, msg, now⟩,
         ⟨Sender.system, renderString out.response_text, now⟩]
      pstate := r.1
      lastOutput := out } with hrow
  set st1 : Store := { st with negs := st.negs.map (fun m =>
      if m.id = nid then row else m) } with hst1
  have hgid : ∀ m : NegRow,
      ((fun m => if m.id = nid then row else m) m).id = m.id := by
    intro m
    by_cases h : m.id = nid
    · dsimp only []
      rw [if_pos h, h]
      exact hnid
    · dsimp only []
      rw [if_neg h]
  have hcall1 : openOrContinue ext cap st (some nid) msg now =
      Except.ok ⟨st1, out, nid⟩ := by
    unfold openOrContinue
    dsimp only []
    rw [hfind]
    dsimp only []
    rw [if_neg (by simp [hpend]), if_neg hph, if_neg hfresh]
  have hfind1 : findNeg st1.negs nid = some row := by
    have hn2 : st1.negs = st.negs.map (fun m => if m.id = nid then row else m) :=
      rfl
    rw [hn2, findNeg_map st.negs nid _ hgid, hfind]
    simp [hnid]
  have hrowstat : row.status = NegStatus.pending := hpend
  have htail : lastBuyerMessage row.transcript = some msg :=
    lastBuyerMessage_append n.transcript msg
      (renderString out.response_text) now now
  have hcall2 : storeAfter (openOrContinue ext cap st1 (some nid) msg now2)
      st1 = st1 := by
    unfold openOrContinue
    dsimp only []
    rw [hfind1]
    dsimp only []
    rw [if_neg (by simp [hrowstat, hpend])]
    by_cases hc : row.pstate.phase = Phase.completed
    · rw [if_pos hc]; rfl
    · rw [if_neg hc, if_pos htail]; rfl
  refine ⟨⟨st1, out, nid⟩, renderString out.response_text, hcall1, ?_, hcall2⟩
  unfold transcriptOf
  rw [hfind1]

lemma mem_map_step (g : NegRow → NegRow) (negs : List NegRow)
    (hgid : ∀ m, (g m).id = m.id)
    (hgstat : ∀ m ∈ negs, StatusStep m.status (g m).status)
    (n : NegRow) (hn : n ∈ negs) :
    ∃ n2 ∈ negs.map g, n2.id = n.id ∧ StatusStep n.status n2.status :=
  ⟨g n, List.mem_map_of_mem g hn, hgid n, hgstat n hn⟩

/-- C7: every operation — seller accept, seller reject, and a buyer
turn — moves each negotiation status only along the legal transitions
pending → accepted and pending → rejected (terminal rows are preserved
verbatim), and a buyer turn on a negotiation whose status is already
terminal is refused with `NegotiationClosed`. -/
theorem status_lifecycle (st : Store) (hu : IdsUnique st.negs) :
    (∀ nid seller st2, acceptNegotiation st nid seller = Except.ok st2 →
       ∀ n ∈ st.negs, ∃ n2 ∈ st2.negs, n2.id = n.id ∧
         StatusStep n.status n2.status) ∧
    (∀ nid seller st2, rejectNegotiation st nid seller = Except.ok st2 →
       ∀ n ∈ st.negs, ∃ n2 ∈ st2.negs, n2.id = n.id ∧
         StatusStep n.status n2.status) ∧
    (∀ ext cap nid msg now r2,
       openOrContinue ext cap st (some nid) msg now = Except.ok r2 →
       ∀ n ∈ st.negs, ∃ n2 ∈ r2.store.negs, n2.id = n.id ∧
         n2.status = n.status) ∧
    (∀ ext cap nid msg now n, findNeg st.negs nid = some n →
       ¬ n.status = NegStatus.pending →
       openOrContinue ext cap st (some nid) msg now =
         Except.error LedgerError.NegotiationClosed) := by
  refine ⟨?_, ?_, ?_, ?_⟩
  · intro nid seller st2 hok n hn
    unfold acceptNegotiation at hok
    cases hfind : findNeg st.negs nid with
    | none => rw [hfind] at hok; simp at hok
    | some n0 =>
        rw [hfind] at hok
        dsimp only [] at hok
        obtain ⟨hn0mem, hn0id⟩ := findNeg_mem st.negs nid n0 hfind
        by_cases c1 : st.listing.seller_id ≠ seller
        · rw [if_pos c1] at hok; simp at hok
        · rw [if_neg c1] at hok
          by_cases c2 : st.listing.is_sold = true
          · rw [if_pos c2] at hok; simp at hok
          · rw [if_neg c2] at hok
            by_cases c3 : n0.status ≠ NegStatus.pending
            · rw [if_pos c3] at hok; simp at hok
            · rw [if_neg c3] at hok
              have hp0 : n0.status = NegStatus.pending := not_not.mp c3
              injection hok with hok
              subst hok
              apply mem_map_step _ st.negs ?_ ?_ n hn
              · intro m
                by_cases h : m.id = nid
                · try dsimp only []
                  rw [if_pos h, h]
                · try dsimp only []
                  rw [if_neg h]
                  by_cases h2 : m.status = NegStatus.pending
                  · rw [if_pos h2]
                  · rw [if_neg h2]
              · intro m hm
                by_cases h : m.id = nid
                · have hmn0 : m = n0 :=
                    eq_of_id_eq st.negs hu m n0 hm hn0mem (by rw [h, hn0id])
                  try dsimp only []
                  rw [if_pos h]
                  exact Or.inr ⟨by rw [hmn0]; exact hp0, Or.inl rfl⟩
                · try dsimp only []
                  rw [if_neg h]
                  by_cases h2 : m.status = NegStatus.pending
                  · rw [if_pos h2]
                    exact Or.inr ⟨h2, Or.inr rfl⟩
                  · rw [if_neg h2]
                    exact Or.inl rfl
  · intro nid seller st2 hok n hn
    unfold rejectNegotiation at hok
    cases hfind : findNeg st.negs nid with
    | none => rw [hfind] at hok; simp at hok
    | some n0 =>
        rw [hfind] at hok
        dsimp only [] at hok
        obtain ⟨hn0mem, hn0id⟩ := findNeg_mem st.negs nid n0 hfind
        by_cases c1 : st.listing.seller_id ≠ seller
        · rw [if_pos c1] at hok; simp at hok
        · rw [if_neg c1] at hok
          by_cases c3 : n0.status ≠ NegStatus.pending
          · rw [if_pos c3] at hok; simp at hok
          · rw [if_neg c3] at hok
            have hp0 : n0.status = NegStatus.pending := not_not.mp c3
            injection hok with hok
            subst hok
            apply mem_map_step _ st.negs ?_ ?_ n hn
            · intro m
              by_cases h : m.id = nid
              · try dsimp only []
                rw [if_pos h, h]
              · try dsimp only []
                rw [if_neg h]
            · intro m hm
              by_cases h : m.id = nid
              · have hmn0 : m = n0 :=
                  eq_of_id_eq st.negs hu m n0 hm hn0mem (by rw [h, hn0id])
                try dsimp only []
                rw [if_pos h]
                exact Or.inr ⟨by rw [hmn0]; exact hp0, Or.inr rfl⟩
              · try dsimp only []
                rw [if_neg h]
                exact Or.inl rfl
  · intro ext cap nid msg now r2 hok n hn
    unfold openOrContinue at hok
    dsimp only [] at hok
    cases hfind : findNeg st.negs nid with
    | none => rw [hfind] at hok; simp at hok
    | some n0 =>
        rw [hfind] at hok
        dsimp only [] at hok
        obtain ⟨hn0mem, hn0id⟩ := findNeg_mem st.negs nid n0 hfind
        by_cases c1 : n0.status ≠ NegStatus.pending
        · rw [if_pos c1] at hok; simp at hok
        · rw [if_neg c1] at hok
          by_cases c2 : n0.pstate.phase = Phase.completed
          · rw [if_pos c2] at hok; simp at hok
          · rw [if_neg c2] at hok
            by_cases c3 : lastBuyerMessage n0.transcript = some msg
            · rw [if_pos c3] at hok
              injection hok with hok
              subst hok
              exact ⟨n, hn, rfl, rfl⟩
            · rw [if_neg c3] at hok
              injection hok with hok
              subst hok
              refine ⟨_, List.mem_map_of_mem _ hn, ?_, ?_⟩
              · by_cases h : n.id = nid
                · try dsimp only []
                  rw [if_pos h, h]
                  exact hn0id
                · try dsimp only []
                  rw [if_neg h]
              · by_cases h : n.id = nid
                · have hnn0 : n = n0 :=
                    eq_of_id_eq st.negs hu n n0 hn hn0mem (by rw [h, hn0id])
                  try dsimp only []
                  rw [if_pos h]
                  rw [hnn0]
                · try dsimp only []
                  rw [if_neg h]
  · intro ext cap nid msg now n hfind hterm
    unfold openOrContinue
    try dsimp only []
    rw [hfind]
    try dsimp only []
    rw [if_pos hterm]

/-- The turn output stored on fresh sample rows. -/
def sampleOutput : TurnOutput :=
  renderOutput Decision.askOffer (initState sampleListing)

/-- A pending sample negotiation row with the given id. -/
def sampleRow (i : Nat) : NegRow :=
  { id := i, transcript := [], pstate := initState sampleListing,
    lastOutput := sampleOutput, status := NegStatus.pending }

/-- A sample store: the sample listing with two pending negotiations. -/
def sampleStore : Store :=
  { listing := sampleListing, negs := [sampleRow 1, sampleRow 2] }

/-- Witness for C3 on the sample store: accepting negotiation 1 sells
the listing, rejects negotiation 2, and accepting 2 afterwards fails
with `AlreadySold`. -/
theorem sale_exclusivity_witness :
    ∃ st', acceptNegotiation sampleStore 1 7 = Except.ok st' ∧
      st'.listing.is_sold = true ∧
      st'.listing.is_active = false ∧
      (∀ n ∈ st'.negs, n.id = 1 → n.status = NegStatus.accepted) ∧
      (∀ n ∈ st'.negs, n.id = 2 → n.status = NegStatus.rejected) ∧
      acceptNegotiation st' 2 7 = Except.error FinError.AlreadySold :=
  sale_exclusivity sampleStore 1 2 7 (by decide) (by decide) (by decide)
    (by decide) (by decide) (by decide) (by decide)

/-- Witness for C4 on the sample store: replaying the same message on
negotiation 1 appends exactly one buyer turn with one system reply. -/
theorem idempotent_replay_witness :
    ∃ r1 : TurnResult, ∃ reply : String,
      openOrContinue (fun _ => TurnInput.text) 10 sampleStore (some 1)
        "hello" 0 = Except.ok r1 ∧
      transcriptOf r1.store 1 = (sampleRow 1).transcript ++
        [⟨Sender.buyer, "hello", 0⟩, ⟨Sender.system, reply, 0⟩] ∧
      storeAfter (openOrContinue (fun _ => TurnInput.text) 10 r1.store
        (some 1) "hello" 1) r1.store = r1.store :=
  idempotent_replay (fun _ => TurnInput.text) 10 sampleStore 1 "hello" 0 1
    (sampleRow 1) (by decide) (by decide) (by decide) (by decide)

/-- Witness for C7 on the sample store. -/
theorem status_lifecycle_witness :
    (∀ nid seller st2,
       acceptNegotiation sampleStore nid seller = Except.ok st2 →
       ∀ n ∈ sampleStore.negs, ∃ n2 ∈ st2.negs, n2.id = n.id ∧
         StatusStep n.status n2.status) ∧
    (∀ nid seller st2,
       rejectNegotiation sampleStore nid seller = Except.ok st2 →
       ∀ n ∈ sampleStore.negs, ∃ n2 ∈ st2.negs, n2.id = n.id ∧
         StatusStep n.status n2.status) ∧
    (∀ ext cap nid msg now r2,
       openOrContinue ext cap sampleStore (some nid) msg now =
         Except.ok r2 →
       ∀ n ∈ sampleStore.negs, ∃ n2 ∈ r2.store.negs, n2.id = n.id ∧
         n2.status = n.status) ∧
    (∀ ext cap nid msg now n, findNeg sampleStore.negs nid = some n →
       ¬ n.status = NegStatus.pending →
       openOrContinue ext cap sampleStore (some nid) msg now =
         Except.error LedgerError.NegotiationClosed) :=
  status_lifecycle sampleStore
    (by show (sampleStore.negs.map (fun n => n.id)).Nodup; decide)

/-! ## Theorems about the frontend handlers -/

/-- C6: the sell form posts a sale only when both prices are positive
and the minimum (floor) price does not exceed the selling (asking)
price, so no listing is created with a floor above its asking price. -/
theorem sell_form_floor_le_asking (vid : Nat) (sp mp : ℚ) (d : SaleData)
    (h : handleSellSubmit vid sp mp = SellFormResult.submit d) :
    0 < d.selling_price ∧ 0 < d.minimum_price ∧
    d.minimum_price ≤ d.selling_price ∧ d = ⟨vid, sp, mp⟩ := by
  unfold handleSellSubmit at h
  by_cases h1 : sp ≤ 0 ∨ mp ≤ 0
  · rw [if_pos h1] at h; simp at h
  · rw [if_neg h1] at h
    by_cases h2 : mp > sp
    · rw [if_pos h2] at h; simp at h
    · rw [if_neg h2] at h
      injection h with h
      push_neg at h1
      subst h
      exact ⟨h1.1, h1.2, not_lt.mp h2, rfl⟩

/-- Witness for C6: a 1,200,000 asking price with a 1,000,000 floor is
accepted and satisfies the invariant. -/
theorem sell_form_floor_le_asking_witness :
    0 < (⟨3, 1200000, 1000000⟩ : SaleData).selling_price ∧
    0 < (⟨3, 1200000, 1000000⟩ : SaleData).minimum_price ∧
    (⟨3, 1200000, 1000000⟩ : SaleData).minimum_price ≤
      (⟨3, 1200000, 1000000⟩ : SaleData).selling_price ∧
    (⟨3, 1200000, 1000000⟩ : SaleData) = ⟨3, 1200000, 1000000⟩ :=
  sell_form_floor_le_asking 3 1200000 1000000 ⟨3, 1200000, 1000000⟩
    (by decide)

/-- C8: a non-OK HTTP response is always surfaced as a thrown error —
never as a successful result — and whenever the parsed body carries a
truthy `error` field, the thrown message starts with that server
message. -/
theorem api_errors_surfaced {α : Type} (r : HttpResponse α)
    (hok : r.ok = false) :
    apiCall r = Except.error (apiErrorMessage r) ∧
    (∀ a : α, ¬ apiCall r = Except.ok a) ∧
    (∀ b e, r.errorBody = some b → b.error = some e →
       jsTruthyStr b.error = true →
       ∃ rest, apiErrorMessage r = e ++ rest) := by
  have hcall : apiCall r = Except.error (apiErrorMessage r) := by
    unfold apiCall
    simp [hok]
  refine ⟨hcall, ?_, ?_⟩
  · intro a hcontra
    rw [hcall] at hcontra
    cases hcontra
  · intro b e hb he htr
    unfold apiErrorMessage
    rw [hb]
    dsimp only []
    rw [if_pos htr, he]
    cases hv : b.validation_errors with
    | some vs =>
        refine ⟨": " ++ String.intercalate ", " vs, ?_⟩
        show e ++ ": " ++ String.intercalate ", " vs =
          e ++ (": " ++ String.intercalate ", " vs)
        rw [String.append_assoc]
    | none =>
        by_cases hm : jsTruthyStr b.message = true
        · rw [if_pos hm]
          refine ⟨": " ++ b.message.getD "", ?_⟩
          show e ++ ": " ++ b.message.getD "" = e ++ (": " ++ b.message.getD "")
          rw [String.append_assoc]
        · rw [if_neg hm]
          exact ⟨"", (String.append_empty e).symm⟩

/-- A concrete failed response carrying a server error message. -/
def soldResponse : HttpResponse Unit :=
  { ok := false, status := 400, statusText := "Bad Request",
    errorBody := some
      { error := some "Vehicle is already sold",
        validation_errors := none, message := none },
    payload := () }

/-- Witness for C8 at a concrete already-sold failure response. -/
theorem api_errors_surfaced_witness :
    apiCall soldResponse = Except.error (apiErrorMessage soldResponse) ∧
    (∀ a : Unit, ¬ apiCall soldResponse = Except.ok a) ∧
    (∀ b e, soldResponse.errorBody = some b → b.error = some e →
       jsTruthyStr b.error = true →
       ∃ rest, apiErrorMessage soldResponse = e ++ rest) :=
  api_errors_surfaced soldResponse (by decide)

lemma foldl_min_mem (l : List ℚ) : ∀ a : ℚ, l.foldl min a ∈ a :: l := by
  induction l with
  | nil => intro a; simp
  | cons b t ih =>
      intro a
      rw [List.foldl_cons]
      rcases List.mem_cons.mp (ih (min a b)) with h | h
      · rw [h]
        rcases min_choice a b with hm | hm
        · rw [hm]; exact List.mem_cons_self a (b :: t)
        · rw [hm]
          exact List.mem_cons_of_mem a (List.mem_cons_self b t)
      · exact List.mem_cons_of_mem a (List.mem_cons_of_mem b h)

lemma foldl_min_le (l : List ℚ) :
    ∀ a x : ℚ, x ∈ a :: l → l.foldl min a ≤ x := by
  induction l with
  | nil =>
      intro a x hx
      simp at hx
      subst hx
      exact le_refl _
  | cons b t ih =>
      intro a x hx
      rw [List.foldl_cons]
      rcases List.mem_cons.mp hx with hEq | hx2
      · rw [hEq]
        exact le_trans
          (ih (min a b) (min a b) (List.mem_cons_self _ _)) (min_le_left a b)
      · rcases List.mem_cons.mp hx2 with hEq | hx3
        · rw [hEq]
          exact le_trans
            (ih (min a b) (min a b) (List.mem_cons_self _ _))
            (min_le_right a b)
        · exact ih (min a b) x (List.mem_cons_of_mem _ hx3)

/-- C9: on a non-empty negotiation list the displayed Best Offer is the
minimum of the `final_offer` values — not the maximum — and the shown
discount from asking is computed from that minimum. -/
theorem best_offer_is_minimum (negs : List NegotiationView) (sp : ℚ)
    (hne : ¬ negs = []) :
    ∃ m : ℚ, bestOfferDisplay negs = some m ∧
      (∀ n ∈ negs, m ≤ n.final_offer) ∧
      (∃ n ∈ negs, n.final_offer = m) ∧
      discountDisplay sp negs =
        (if m < sp then some (sp - m) else none) := by
  cases negs with
  | nil => exact absurd rfl hne
  | cons h t =>
      have hbo : bestOfferDisplay (h :: t) =
          some ((t.map (fun n => n.final_offer)).foldl min h.final_offer) := by
        simp [bestOfferDisplay, jsMathMin]
      refine ⟨(t.map (fun n => n.final_offer)).foldl min h.final_offer,
        hbo, ?_, ?_, ?_⟩
      · intro n hn
        apply foldl_min_le (t.map (fun n => n.final_offer)) h.final_offer
        rcases List.mem_cons.mp hn with hEq | hn2
        · subst hEq; exact List.mem_cons_self _ _
        · exact List.mem_cons_of_mem _
            (List.mem_map_of_mem (fun n => n.final_offer) hn2)
      · rcases List.mem_cons.mp
            (foldl_min_mem (t.map (fun n => n.final_offer)) h.final_offer)
          with hEq | hmem
        · exact ⟨h, List.mem_cons_self _ _, hEq.symm⟩
        · obtain ⟨n, hn, hfo⟩ := List.mem_map.mp hmem
          exact ⟨n, List.mem_cons_of_mem _ hn, hfo⟩
      · unfold discountDisplay
        rw [hbo]

/-- Two concrete pending negotiations with offers 1,800,000 and
1,750,000. -/
def sampleNegotiations : List NegotiationView :=
  [⟨1, "Amal Perera", "amal@example.com", 1800000, NegStatus.pending⟩,
   ⟨2, "Nimal Silva", "nimal@example.com", 1750000, NegStatus.pending⟩]

/-- Witness for C9 on two concrete offers: the Best Offer figure is the
lower one, 1,750,000. -/
theorem best_offer_is_minimum_witness :
    ∃ m : ℚ, bestOfferDisplay sampleNegotiations = some m ∧
      (∀ n ∈ sampleNegotiations, m ≤ n.final_offer) ∧
      (∃ n ∈ sampleNegotiations, n.final_offer = m) ∧
      discountDisplay 2000000 sampleNegotiations =
        (if m < 2000000 then some (2000000 - m) else none) :=
  best_offer_is_minimum sampleNegotiations 2000000 (by decide)

lemma chatRun_complete (evs : List ChatEvent) : ∀ st : ChatState,
    st.isNegotiationComplete = true →
    (chatRun st evs).isNegotiationComplete = true := by
  induction evs with
  | nil => intro st h; exact h
  | cons e es ih =>
      intro st h
      rw [chatRun]
      apply ih
      cases e with
      | success m r now => simp [chatStep, sendMessageSuccess, h]
      | failure m now => simpa [chatStep, sendMessageFailure] using h

/-- C10: once a negotiation response arrives with `contact_collected`
true and a truthy `final_price`, the chat input box is never rendered
again for the rest of the session, whatever further events occur, so no
further buyer message can be sent from that session. -/
theorem chat_input_closes_on_completion (st : ChatState) (msgText : String)
    (resp : NegotiationResponse) (now : Nat) (evs : List ChatEvent)
    (hc : jsTruthyBool resp.contact_collected = true)
    (hp : jsTruthyNum resp.final_price = true) :
    chatInputRendered (chatRun (sendMessageSuccess st msgText resp now) evs)
      = false := by
  have h1 : (sendMessageSuccess st msgText resp now).isNegotiationComplete
      = true := by
    simp [sendMessageSuccess, hc, hp]
  have h2 := chatRun_complete evs _ h1
  simp [chatInputRendered, h2]

/-- A concrete completed negotiation response. -/
def completedResponse : NegotiationResponse :=
  { response := "confirmed at Rs 1750000", current_offer := 1750000,
    is_final := true, negotiation_id := 1, chat_history := [],
    contact_collected := some true, final_price := some 1750000 }

/-- Witness for C10 at a concrete completed response on a fresh
session. -/
theorem chat_input_closes_on_completion_witness :
    chatInputRendered (chatRun
      (sendMessageSuccess initialChatState "done" completedResponse 5) [])
      = false :=
  chat_input_closes_on_completion initialChatState "done" completedResponse 5
    [] (by decide) (by decide)

end AutoGuardian
